import Mathlib

/-!
Verification of the magma process-control and protocol-decoding engine
(package `proc` and its sub-package `parse`).

The Go sources are embedded shallowly:

* byte strings (`[]byte`) become `List Nat`, Go `string`s in the parse
  package become `List Char`;
* Go functions that can fail return `GoRes`, whose `panicked` constructor
  records a Go run-time panic (out-of-range slice index, explicit
  `panic(...)`) and whose `err` constructor records a returned non-nil
  `error`;
* the stateful response multiplexer (`rhandler`) becomes a state machine
  over explicit states, heap-allocated `response` objects being named by
  freshly drawn numeric ids;
* goroutine channels are abstracted to the values that travel over them
  (event logs, counters); blocking behaviour is out of scope.

Library functions (`bytes.Fields`, `strings.FieldsFunc`, `strconv.Atoi`,
`strings.Split`, ...) are modelled faithfully for ASCII data: whitespace
is the ASCII whitespace set used by the Go fast paths.
-/

namespace Magma

/-- Result of running a piece of Go code: a normal value, a returned
non-nil `error` (with its message where the source builds one), or a
run-time panic. -/
inductive GoRes (α : Type) where
  | ok (a : α)
  | err (msg : String)
  | panicked
deriving DecidableEq, Repr

/-- ASCII whitespace bytes, as recognised by `bytes.Fields` /
`unicode.IsSpace` on ASCII input: tab, LF, VT, FF, CR, space. -/
def isSpaceByte (b : Nat) : Bool :=
  b == 9 || b == 10 || b == 11 || b == 12 || b == 13 || b == 32

/-- ASCII whitespace characters (`unicode.IsSpace` restricted to ASCII). -/
def isSpaceChar (c : Char) : Bool := isSpaceByte c.toNat

/-- Accumulator loop shared by the models of `bytes.Fields`,
`strings.Fields` and `strings.FieldsFunc`: split the list at every
element satisfying `p`, dropping empty segments.  `cur` is the current
token, reversed. -/
def fieldsByAux {α : Type} (p : α → Bool) (cur : List α) : List α → List (List α)
  | [] => if cur.isEmpty then [] else [cur.reverse]
  | c :: rest =>
    if p c then
      if cur.isEmpty then fieldsByAux p [] rest
      else cur.reverse :: fieldsByAux p [] rest
    else fieldsByAux p (c :: cur) rest

/-- `FieldsFunc`-style splitting: tokens are the maximal runs of elements
not satisfying `p`. -/
def fieldsBy {α : Type} (p : α → Bool) (l : List α) : List (List α) :=
  fieldsByAux p [] l

/-- `bytes.Fields`: tokenize a byte string on ASCII whitespace. -/
def bfieldsB (l : List Nat) : List (List Nat) := fieldsBy isSpaceByte l

/-- `strings.Fields` on the parse package's strings. -/
def goFields (l : List Char) : List (List Char) := fieldsBy isSpaceChar l

/-- `matchCommaRune` (parse package): the comma splitter predicate. -/
def matchCommaRune (c : Char) : Bool := c == ','

/-- `strings.FieldsFunc(input, matchCommaRune)`. -/
def splitCommas (l : List Char) : List (List Char) := fieldsBy matchCommaRune l

/-- `TrimSpace`: drop leading and trailing elements satisfying `p`. -/
def trimSpaceBy {α : Type} (p : α → Bool) (l : List α) : List α :=
  ((l.dropWhile p).reverse.dropWhile p).reverse

/-- `bytes.TrimSpace` on byte strings. -/
def trimSpaceBytes (l : List Nat) : List Nat := trimSpaceBy isSpaceByte l

/-- `strings.TrimSpace` on strings. -/
def trimSpace (l : List Char) : List Char := trimSpaceBy isSpaceChar l

/-- Convenience: the character list of a string literal. -/
def str (s : String) : List Char := s.toList

/-- `strings.TrimPrefix` / the prefix test used throughout the parsers:
drop `pre` if it is a prefix, otherwise return the input unchanged.  The
Go sources detect the match by comparing lengths afterwards. -/
def goTrimPre {α : Type} [DecidableEq α] (pre l : List α) : List α :=
  if pre.isPrefixOf l then l.drop pre.length else l

/-- `strings.TrimSuffix`. -/
def goTrimSuf {α : Type} [DecidableEq α] (suf l : List α) : List α :=
  if suf.isSuffixOf l then l.take (l.length - suf.length) else l

/-- First-occurrence split: `bytes.SplitN(l, [sep], 2)` returns
`some (before, after)` when `sep` occurs, `none` otherwise. -/
def splitFirst {α : Type} [DecidableEq α] (sep : α) : List α → Option (List α × List α)
  | [] => none
  | b :: rest =>
    if b = sep then some ([], rest)
    else (splitFirst sep rest).map fun p => (b :: p.1, p.2)

/-- `strings.SplitN(l, sep, 2)` for a multi-character separator:
`some (before, after)` at the first occurrence of `sep`, `none` when `sep`
does not occur (`sep` is nonempty at every call site). -/
def splitOnceSub (sep : List Char) : List Char → Option (List Char × List Char)
  | [] => none
  | x :: xs =>
    if sep.isPrefixOf (x :: xs) then some ([], (x :: xs).drop sep.length)
    else (splitOnceSub sep xs).map fun p => (x :: p.1, p.2)

/-- `strings.LastIndex(l, ":")`-style search for a single character:
index of the last occurrence, if any. -/
def lastIndexOf (c : Char) : List Char → Option Nat
  | [] => none
  | x :: xs =>
    match lastIndexOf c xs with
    | some i => some (i + 1)
    | none => if x = c then some 0 else none

/-- `strings.Split(l, [sep])` (all occurrences, empty segments kept). -/
def splitOnChar (sep : Char) : List Char → List (List Char)
  | [] => [[]]
  | c :: rest =>
    if c = sep then [] :: splitOnChar sep rest
    else
      match splitOnChar sep rest with
      | [] => [[c]]
      | s :: ss => (c :: s) :: ss

/-- ASCII digit test on bytes. -/
def isDigitByte (b : Nat) : Bool := 48 ≤ b && b ≤ 57

/-- ASCII digit test on characters. -/
def isDigitChar (c : Char) : Bool := isDigitByte c.toNat

/-- Decimal value of a digit byte string. -/
def digitsValB (ds : List Nat) : Nat := ds.foldl (fun a d => a * 10 + (d - 48)) 0

/-- Decimal value of a digit character string. -/
def digitsVal (ds : List Char) : Nat := digitsValB (ds.map Char.toNat)

/-- The 64-bit `int` range check of `strconv.Atoi`. -/
def atoiRange (v : Int) : Option Int :=
  if -(2 ^ 63 : Int) ≤ v ∧ v < (2 ^ 63 : Int) then some v else none

/-- The digit part of `strconv.Atoi`: at least one digit and nothing
else, then the range check on the (possibly negated) value. -/
def atoiDigits (digits : List Nat) (neg : Bool) : Option Int :=
  if digits = [] then none
  else if digits.all isDigitByte then
    atoiRange (if neg then -(digitsValB digits : Int) else (digitsValB digits : Int))
  else none

/-- `strconv.Atoi` on a byte string: an optional sign, then at least one
digit and nothing else, with the 64-bit `int` range check; `none` is the
`error` case. -/
def atoiB (s : List Nat) : Option Int :=
  match s with
  | [] => none
  | b :: rest =>
    if b = 43 then atoiDigits rest false
    else if b = 45 then atoiDigits rest true
    else atoiDigits s false

/-- `strconv.Atoi` on the parse package's strings. -/
def atoiC (s : List Char) : Option Int := atoiB (s.map Char.toNat)

/-! ## Special protocol bytes and the tag framer (part of the proc package) -/

/-- `newTagChar`: the sentinel byte prefixing every tag line. -/
def newTagChar : Nat := 129

/-- `runCommandChar`: the run-command control byte (^D). -/
def runCommandChar : Nat := 4

/-- `parseTagLine` (proc package): split a raw output line into the tag
name, auxiliary tag fields and optional trailing data.  `none` models a
nil byte slice. -/
def parseTagLine (line : List Nat) :
    Option (List Nat) × List (List Nat) × Option (List Nat) :=
  match line with
  | [] => (none, [], none)
  | b :: rest =>
    -- Go: if len(line) > 1 && line[0] == newTagChar
    if b = newTagChar ∧ rest ≠ [] then
      -- lineSplit := bytes.SplitN(line[1:], newTagSlice, 2)
      let hd : List Nat × Option (List Nat) :=
        match splitFirst newTagChar rest with
        | none => (rest, none)
        | some (h, d) => (h, some d)
      match bfieldsB hd.1 with
      | [] => (none, [], none)
      | t :: ts => (some (trimSpaceBytes t), ts, hd.2.map trimSpaceBytes)
    else (none, [], none)

theorem splitFirst_not_mem {α : Type} [DecidableEq α] (sep : α) (l : List α)
    (h : sep ∉ l) : splitFirst sep l = none := by
  induction l with
  | nil => rfl
  | cons b rest ih =>
    simp only [List.mem_cons, not_or] at h
    simp [splitFirst, Ne.symm h.1, ih h.2]

theorem splitFirst_append {α : Type} [DecidableEq α] (sep : α) (h d : List α)
    (hh : sep ∉ h) : splitFirst sep (h ++ sep :: d) = some (h, d) := by
  induction h with
  | nil => simp [splitFirst]
  | cons b rest ih =>
    simp only [List.mem_cons, not_or] at hh
    simp [splitFirst, Ne.symm hh.1, ih hh.2]

/-- C2: the tag framer.  A line that does not begin with the sentinel
byte carries no tag; a sentinel-led line is split on the next occurrence
of the sentinel into a header and an optional data segment, the header
is tokenized on whitespace, the first token is the tag name and the
remaining tokens, in order, are the auxiliary fields.  (`parseTagLine` is
a pure function of its argument, so determinism and absence of side
effects hold by construction.) -/
theorem C2_parseTagLine_frames :
    (∀ l : List Nat, l.head? ≠ some newTagChar → parseTagLine l = (none, [], none)) ∧
    (∀ hd t ts dt, newTagChar ∉ hd → bfieldsB hd = t :: ts →
      parseTagLine (newTagChar :: hd ++ newTagChar :: dt) =
        (some (trimSpaceBytes t), ts, some (trimSpaceBytes dt))) ∧
    (∀ rest t ts, newTagChar ∉ rest → rest ≠ [] → bfieldsB rest = t :: ts →
      parseTagLine (newTagChar :: rest) = (some (trimSpaceBytes t), ts, none)) := by
  refine ⟨?_, ?_, ?_⟩
  · intro l hl
    match l with
    | [] => rfl
    | b :: rest =>
      simp only [List.head?] at hl
      have hb : ¬(b = newTagChar ∧ rest ≠ []) := by
        intro hc
        exact hl (by rw [hc.1])
      simp [parseTagLine, hb]
  · intro hd t ts dt hmem hf
    have hne : hd ++ newTagChar :: dt ≠ [] := by simp
    simp [parseTagLine, hne, splitFirst_append newTagChar hd dt hmem, hf]
  · intro rest t ts hmem hne hf
    simp [parseTagLine, hne, splitFirst_not_mem newTagChar rest hmem, hf]

/-- C2 witness: concrete framings.  `[129] ++ "RUN 1" ++ [129] ++ " d"`
frames to tag `RUN`, fields `["1"]`, data `"d"`; `[129] ++ "TB"` frames
to tag `TB` with no data; `"OUT..."` without the sentinel carries no
tag. -/
theorem C2_parseTagLine_frames_witness :
    parseTagLine [79, 85, 84] = (none, [], none) ∧
    parseTagLine (newTagChar :: [82, 85, 78, 32, 49] ++ newTagChar :: [32, 100]) =
      (some [82, 85, 78], [[49]], some [100]) ∧
    parseTagLine (newTagChar :: [84, 66]) = (some [84, 66], [], none) := by
  refine ⟨C2_parseTagLine_frames.1 [79, 85, 84] (by decide), ?_, ?_⟩
  · have h := C2_parseTagLine_frames.2.1 [82, 85, 78, 32, 49] [82, 85, 78] [[49]]
      [32, 100] (by decide) (by decide)
    rw [h]
    decide
  · have h := C2_parseTagLine_frames.2.2 [84, 66] [84, 66] [] (by decide) (by decide)
      (by decide)
    rw [h]
    decide

/-! ## Tags (`proc`, second section of response.go)

A `tag` is a plain string in the source; `Tagged.Tag()` projects the tag
out of any decoded value, so `IsError` is modelled directly on the tag
string. -/

def TagOutput : String := "OUT"
def TagList : String := "LST"
def TagSignature : String := "SIG"
def TagErrorSyntax : String := "ENE"
def TagErrorInternal : String := "EI"
def TagErrorUser : String := "EU"
def TagErrorRuntime : String := "ER"
def TagTraceback : String := "TB"
def TagErrorHistoryPosition : String := "POS"
def TagErrorPosition : String := "EPO"
def TagReadPrompt : String := "RD_PR"
def TagReadInput : String := "RD_IN"
def TagReadIntPrompt : String := "RDI_PR"
def TagReadIntInput : String := "RDI_IN"
def TagReadIntError : String := "RDI_ER"

def TagReady : String := "RDY"
def TagInputReceived : String := "IR"
def TagRun : String := "RUN"
def TagErrorParse : String := "ERP"
def TagInterrupt : String := "INT"
def TagQuit : String := "QUIT"
def TagReset : String := "RES"
def TagDebugReady : String := "DRDY"

/-- `IsError` (response.go): true exactly for the tags of the error
switch, in source order. -/
def IsError (t : String) : Bool :=
  t == TagErrorSyntax || t == TagTraceback || t == TagErrorHistoryPosition ||
    t == TagErrorPosition || t == TagErrorInternal || t == TagErrorRuntime ||
    t == TagErrorUser || t == TagReadIntError

/-- C10: `IsError` returns true exactly when the tag is one of the eight
error tags ENE, EI, EU, ER, TB, POS, EPO, RDI_ER, and false for every
other tag string, in particular OUT, LST, SIG, the read-prompt tags and
all status tags. -/
theorem C10_isError_exact :
    (∀ t : String,
      IsError t = true ↔
        (t = TagErrorSyntax ∨ t = TagErrorInternal ∨ t = TagErrorUser ∨
          t = TagErrorRuntime ∨ t = TagTraceback ∨ t = TagErrorHistoryPosition ∨
          t = TagErrorPosition ∨ t = TagReadIntError)) ∧
    IsError TagOutput = false ∧ IsError TagList = false ∧
    IsError TagSignature = false ∧ IsError TagReadPrompt = false ∧
    IsError TagReadInput = false ∧ IsError TagReadIntPrompt = false ∧
    IsError TagReadIntInput = false ∧ IsError TagReady = false ∧
    IsError TagInputReceived = false ∧ IsError TagRun = false ∧
    IsError TagErrorParse = false ∧ IsError TagInterrupt = false ∧
    IsError TagQuit = false ∧ IsError TagReset = false ∧
    IsError TagDebugReady = false := by
  refine ⟨fun t => ?_, ?_⟩
  · simp only [IsError, Bool.or_eq_true, beq_iff_eq]
    tauto
  · refine ⟨?_, ?_, ?_, ?_, ?_, ?_, ?_, ?_, ?_, ?_, ?_, ?_, ?_, ?_, ?_⟩ <;> decide

/-! ## Positions, chunks and the status-tag field parsers (proc package) -/

/-- `Position` (response.go): row/column of a source location; Go `int`. -/
structure Position where
  Row : Int
  Column : Int
deriving DecidableEq, Repr

/-- `chunk` (response.go): a span of the input string.  The source fields
are named `start` and `end`; `end` is a Lean keyword, so they are
`startP` / `endP` here. -/
structure chunk where
  startP : Position
  endP : Position
deriving DecidableEq, Repr

/-- `Ready` (response.go): detailed readiness flags and type-count diff. -/
structure Ready where
  Ident : Bool
  Frame : Bool
  Verbose : Bool
  Set : Bool
  Types : Int
deriving DecidableEq, Repr

/-- `parseReady` (stdout-parsing file): five fields, the first four
compared against the byte string "1", the fifth `strconv.Atoi`-parsed. -/
def parseReady (fs : List (List Nat)) : GoRes Ready :=
  match fs with
  | [a, b, c, d, e] =>
    match atoiB e with
    | none => GoRes.err "RDY parsing number of types"
    | some n => GoRes.ok ⟨a = [49], b = [49], c = [49], d = [49], n⟩
  | _ => GoRes.err "parsing RDY: require 5 parameters"

/-- `parseHistoryPosition`: two fields, both `strconv.Atoi`-parsed. -/
def parseHistoryPosition (fs : List (List Nat)) : GoRes Position :=
  match fs with
  | [a, b] =>
    match atoiB a with
    | none => GoRes.err "strconv.Atoi: invalid syntax"
    | some r =>
      match atoiB b with
      | none => GoRes.err "strconv.Atoi: invalid syntax"
      | some c => GoRes.ok ⟨r, c⟩
  | _ => GoRes.err "position output not of required form"

/-- `parseResponse`: the chunk decoder.  The source sets
`err = errors.New("response output not of required form")` when the
field count differs from 4 but is missing a `return`, so execution falls
through to `parseHistoryPosition(tagFields[:2])`, whose result overwrites
`err`.  Fields slices have `cap = len`, so `tagFields[:2]` panics when
fewer than 2 fields are present. -/
def parseResponse (fs : List (List Nat)) : GoRes chunk :=
  if fs.length < 2 then GoRes.panicked
  else
    match parseHistoryPosition (fs.take 2) with
    | GoRes.err m => GoRes.err m
    | GoRes.panicked => GoRes.panicked
    | GoRes.ok s =>
      match parseHistoryPosition (fs.drop 2) with
      | GoRes.err m => GoRes.err m
      | GoRes.panicked => GoRes.panicked
      | GoRes.ok e => GoRes.ok ⟨s, e⟩

/-! ## The response multiplexer `rhandler` (response.go)

The decoder task (`parseStdoutLines` and `parseReadPrompt`) drives the
multiplexer through `init`, `start`, `run`, `parseError`,
`internalError`, `send` and `ready` only (`close` is teardown code never
reached from the decoder loop).  Heap-allocated `response` objects are
named by fresh numeric ids drawn from `nextId`; `closed` lists the ids
whose event channel has been closed, `vars` records each response's
variant, and `badSend` becomes true if an event is ever forwarded to a
response whose channel was already closed (which would panic the Go
runtime). -/

/-- The variant of a response: `start` opens a plain `response`, `run` a
`Run`, `parseError` a `ParseError`, `internalError` an `InternalError`. -/
inductive RVar where
  | plain
  | run
  | parseError
  | internalError
deriving DecidableEq, Repr

/-- The multiplexer state: `r` is whether an `Output` is bound (`h.r`),
`c` the id of the current response (`h.c`). -/
structure RState where
  nextId : Nat
  r : Bool
  c : Option Nat
  closed : List Nat
  vars : List (Nat × RVar)
  badSend : Bool
deriving DecidableEq, Repr

/-- The multiplexer state at session start (fresh `rhandler{}`). -/
def initialR : RState := ⟨0, false, none, [], [], false⟩

/-- `rhandler.newResponse`: close the still-open current response if any,
make a fresh response current, and push it on the bound Output's channel
(`h.r.ch <- h.c` dereferences a nil `h.r` when no Output is bound, hence
`none` = panic). -/
def newResponseM (s : RState) (v : RVar) : Option RState :=
  let s1 :=
    match s.c with
    | some i => { s with closed := i :: s.closed }
    | none => s
  if s1.r then
    some { s1 with
      c := some s1.nextId
      nextId := s1.nextId + 1
      vars := (s1.nextId, v) :: s1.vars }
  else none

/-- `rhandler.init`: bind a new Output; panics when one is already bound. -/
def initM (s : RState) : Option RState :=
  if s.r then none else some { s with r := true }

/-- `rhandler.ready`: close and clear the current response and the bound
Output; the boolean reports whether an Output was cleared. -/
def readyM (s : RState) : RState × Bool :=
  let s1 :=
    match s.c with
    | some i => { s with c := none, closed := i :: s.closed }
    | none => s
  if s1.r then ({ s1 with r := false }, true) else (s1, false)

/-- `rhandler.internalError`: open an InternalError response only when no
response is current. -/
def internalErrorM (s : RState) : Option RState :=
  match s.c with
  | some _ => some s
  | none => newResponseM s RVar.internalError

/-- `rhandler.send`: forward an event to the current response; panics
when none is current.  A send on an already-closed channel is recorded in
`badSend`. -/
def sendM (s : RState) : Option RState :=
  match s.c with
  | none => none
  | some i => some { s with badSend := s.badSend || decide (i ∈ s.closed) }

/-- The multiplexer operations the decoder task performs. -/
inductive ROp where
  | init
  | start
  | run
  | parseError
  | internalError
  | send
  | ready
deriving DecidableEq, Repr

/-- One multiplexer operation. -/
def stepR (s : RState) : ROp → Option RState
  | ROp.init => initM s
  | ROp.start => newResponseM s RVar.plain
  | ROp.run => newResponseM s RVar.run
  | ROp.parseError => newResponseM s RVar.parseError
  | ROp.internalError => internalErrorM s
  | ROp.send => sendM s
  | ROp.ready => some (readyM s).1

/-- Run a sequence of multiplexer operations; `none` as soon as one
panics. -/
def runOps (s : RState) : List ROp → Option RState
  | [] => some s
  | op :: ops =>
    match stepR s op with
    | none => none
    | some s1 => runOps s1 ops

/-- The multiplexer invariant: closed ids and the current id are below
the fresh-id counter, the current response is not closed, and no event
was ever sent after a close. -/
def RInvP (s : RState) : Prop :=
  (∀ i ∈ s.closed, i < s.nextId) ∧
  (∀ i, s.c = some i → i < s.nextId ∧ i ∉ s.closed) ∧
  s.badSend = false

theorem newResponseM_eq_of_none {s : RState} {v : RVar} (hc : s.c = none)
    (hr : s.r = true) :
    newResponseM s v =
      some { s with
        c := some s.nextId
        nextId := s.nextId + 1
        vars := (s.nextId, v) :: s.vars } := by
  unfold newResponseM
  simp [hc, hr]

theorem newResponseM_eq_of_some {s : RState} {v : RVar} {j : Nat}
    (hc : s.c = some j) (hr : s.r = true) :
    newResponseM s v =
      some { s with
        c := some s.nextId
        nextId := s.nextId + 1
        closed := j :: s.closed
        vars := (s.nextId, v) :: s.vars } := by
  unfold newResponseM
  simp [hc, hr]

theorem newResponseM_none_of_r {s : RState} {v : RVar} (hr : s.r = false) :
    newResponseM s v = none := by
  unfold newResponseM
  cases hc : s.c <;> simp [hc, hr]

theorem newResponseM_inv {s s' : RState} {v : RVar} (h : RInvP s)
    (hs : newResponseM s v = some s') : RInvP s' := by
  obtain ⟨h1, h2, h3⟩ := h
  cases hr : s.r with
  | false => rw [newResponseM_none_of_r hr] at hs; cases hs
  | true =>
    cases hc : s.c with
    | none =>
      rw [newResponseM_eq_of_none hc hr] at hs
      injection hs with hs
      subst hs
      refine ⟨fun i hi => Nat.lt_succ_of_lt (h1 i hi), fun i hi => ?_, h3⟩
      injection hi with hi
      subst hi
      exact ⟨Nat.lt_succ_self _, fun hmem => Nat.lt_irrefl _ (h1 _ hmem)⟩
    | some j =>
      rw [newResponseM_eq_of_some hc hr] at hs
      injection hs with hs
      subst hs
      have hj := h2 j hc
      refine ⟨?_, fun i hi => ?_, h3⟩
      · intro i hi
        simp only [List.mem_cons] at hi
        rcases hi with rfl | hi
        · exact Nat.lt_succ_of_lt hj.1
        · exact Nat.lt_succ_of_lt (h1 i hi)
      · injection hi with hi
        subst hi
        refine ⟨Nat.lt_succ_self _, ?_⟩
        intro hmem
        simp only [List.mem_cons] at hmem
        rcases hmem with rfl | hmem
        · exact Nat.lt_irrefl _ hj.1
        · exact Nat.lt_irrefl _ (h1 _ hmem)

theorem readyM_fields (s : RState) :
    (readyM s).1.closed =
      (match s.c with | some i => i :: s.closed | none => s.closed) ∧
    (readyM s).1.nextId = s.nextId ∧ (readyM s).1.c = none ∧
    (readyM s).1.badSend = s.badSend := by
  unfold readyM
  cases hc : s.c <;> cases hr : s.r <;> simp [hc, hr]

theorem stepR_inv {s s' : RState} {op : ROp} (h : RInvP s)
    (hs : stepR s op = some s') : RInvP s' := by
  obtain ⟨h1, h2, h3⟩ := h
  cases op with
  | init =>
    unfold stepR initM at hs
    cases hr : s.r
    · rw [hr] at hs
      simp only [Bool.false_eq_true, if_false] at hs
      injection hs with hs
      subst hs
      exact ⟨h1, h2, h3⟩
    · rw [hr] at hs
      simp at hs
  | start => exact newResponseM_inv ⟨h1, h2, h3⟩ hs
  | run => exact newResponseM_inv ⟨h1, h2, h3⟩ hs
  | parseError => exact newResponseM_inv ⟨h1, h2, h3⟩ hs
  | internalError =>
    unfold stepR internalErrorM at hs
    cases hc : s.c with
    | some j =>
      rw [hc] at hs
      injection hs with hs
      subst hs
      exact ⟨h1, h2, h3⟩
    | none =>
      rw [hc] at hs
      exact newResponseM_inv ⟨h1, h2, h3⟩ hs
  | send =>
    unfold stepR sendM at hs
    cases hc : s.c with
    | none => rw [hc] at hs; cases hs
    | some i =>
      rw [hc] at hs
      injection hs with hs
      subst hs
      have hni := (h2 i hc).2
      refine ⟨h1, fun j hj => h2 j (hc.trans hj), ?_⟩
      simp only []
      simp [h3, hni]
  | ready =>
    unfold stepR at hs
    injection hs with hs
    subst hs
    obtain ⟨f1, f2, f3, f4⟩ := readyM_fields s
    refine ⟨?_, ?_, f4.trans h3⟩
    · intro i hi
      rw [f1] at hi
      rw [f2]
      cases hc : s.c with
      | none => rw [hc] at hi; exact h1 i hi
      | some j =>
        rw [hc] at hi
        simp only [List.mem_cons] at hi
        rcases hi with rfl | hi
        · exact (h2 _ hc).1
        · exact h1 i hi
    · intro i hi
      rw [f3] at hi
      cases hi

theorem runOps_inv {ops : List ROp} {s0 s : RState} (h : RInvP s0)
    (hs : runOps s0 ops = some s) : RInvP s := by
  induction ops generalizing s0 with
  | nil =>
    unfold runOps at hs
    cases hs
    exact h
  | cons op ops ih =>
    unfold runOps at hs
    cases hstep : stepR s0 op with
    | none => rw [hstep] at hs; cases hs
    | some s1 =>
      rw [hstep] at hs
      exact ih (stepR_inv h hstep) hs

theorem initialR_inv : RInvP initialR := by
  refine ⟨?_, ?_, rfl⟩ <;> simp [initialR]

/-- C1: in every state the decoder can reach by a sequence of multiplexer
operations, at most one response is current (the `c` field is a single
`Option`), no event has ever been sent to a closed response, the current
response is never a closed one, and each of `start`, `run` and
`parseError` first closes any still-open previous response and makes a
fresh (never closed) response current. -/
theorem C1_rhandler_send_safety :
    ∀ (ops : List ROp) (s : RState), runOps initialR ops = some s →
      s.badSend = false ∧
      (∀ i, s.c = some i → i ∉ s.closed) ∧
      (∀ (op : ROp) (s' : RState),
        (op = ROp.start ∨ op = ROp.run ∨ op = ROp.parseError) →
        stepR s op = some s' →
          (∀ i, s.c = some i → i ∈ s'.closed ∧ s'.c ≠ some i) ∧ s'.c.isSome = true) := by
  intro ops s hs
  have hinv := runOps_inv initialR_inv hs
  obtain ⟨h1, h2, h3⟩ := hinv
  refine ⟨h3, fun i hi => (h2 i hi).2, ?_⟩
  intro op s' hop hstep
  have hnew : ∃ v, newResponseM s v = some s' := by
    rcases hop with rfl | rfl | rfl
    · exact ⟨RVar.plain, hstep⟩
    · exact ⟨RVar.run, hstep⟩
    · exact ⟨RVar.parseError, hstep⟩
  obtain ⟨v, hv⟩ := hnew
  cases hr : s.r with
  | false => rw [newResponseM_none_of_r hr] at hv; cases hv
  | true =>
    cases hc : s.c with
    | none =>
      rw [newResponseM_eq_of_none hc hr] at hv
      injection hv with hv
      subst hv
      refine ⟨fun i hi => ?_, by simp⟩
      cases hi
    | some j =>
      rw [newResponseM_eq_of_some hc hr] at hv
      injection hv with hv
      subst hv
      refine ⟨fun i hi => ?_, by simp⟩
      injection hi with hi
      subst hi
      refine ⟨List.mem_cons_self .., ?_⟩
      have hlt := (h2 _ hc).1
      simp only [ne_eq, Option.some.injEq]
      omega

/-- C1 witness: a concrete decoder-style run (`init`, `start`, `send`,
`run`, `send`, `ready`) reaches the expected state, with no send after a
close. -/
theorem C1_rhandler_send_safety_witness :
    runOps initialR [ROp.init, ROp.start, ROp.send, ROp.run, ROp.send, ROp.ready] =
      some ⟨2, false, none, [1, 0], [(1, RVar.run), (0, RVar.plain)], false⟩ ∧
    (⟨2, false, none, [1, 0], [(1, RVar.run), (0, RVar.plain)], false⟩ : RState).badSend
      = false := by
  have h := C1_rhandler_send_safety
    [ROp.init, ROp.start, ROp.send, ROp.run, ROp.send, ROp.ready]
    ⟨2, false, none, [1, 0], [(1, RVar.run), (0, RVar.plain)], false⟩ (by decide)
  exact ⟨by decide, h.1⟩

/-! ## The decoder's handling of the Ready (RDY) status tag -/

/-- The slice of decoder state relevant to the RDY handshake: the
multiplexer and how many execution-handshake offers (`p.ready <- rch`)
have been issued. -/
structure DecState where
  rh : RState
  offers : Nat
deriving DecidableEq, Repr

/-- The `TagReady` case of `parseStdoutLines`: parse the five RDY fields
(a failure terminates the decoder with that error), emit the status,
call `h.ready()`, and offer a fresh execution handshake exactly when it
returned true. -/
def stepReadyTag (d : DecState) (fs : List (List Nat)) : GoRes DecState :=
  match parseReady fs with
  | GoRes.err m => GoRes.err m
  | GoRes.panicked => GoRes.panicked
  | GoRes.ok _ =>
    let p := readyM d.rh
    GoRes.ok ⟨p.1, d.offers + (if p.2 then 1 else 0)⟩

theorem readyM_spec (s : RState) :
    (readyM s).2 = s.r ∧ (readyM s).1.c = none ∧ (readyM s).1.r = false ∧
    (∀ i, s.c = some i → i ∈ (readyM s).1.closed) := by
  unfold readyM
  cases hc : s.c <;> cases hr : s.r <;> simp [hc, hr]

/-- C3: when the decoder processes a RDY tag (with well-formed fields),
`ready` closes and clears the current Response (if any) and the current
Output (if any), returning true exactly when an Output was cleared, and
the decoder issues a fresh execution-handshake offer if and only if
`ready` returned true. -/
theorem C3_ready_clears_and_offers :
    ∀ (d : DecState) (fs : List (List Nat)) (d' : DecState),
      stepReadyTag d fs = GoRes.ok d' →
        ((readyM d.rh).2 = true ↔ d.rh.r = true) ∧
        d'.rh.c = none ∧ d'.rh.r = false ∧
        (∀ i, d.rh.c = some i → i ∈ d'.rh.closed) ∧
        (d'.offers = d.offers + 1 ↔ d.rh.r = true) ∧
        (d.rh.r = false → d'.offers = d.offers) := by
  intro d fs d' hstep
  unfold stepReadyTag at hstep
  cases hp : parseReady fs with
  | err m => rw [hp] at hstep; cases hstep
  | panicked => rw [hp] at hstep; cases hstep
  | ok rv =>
    rw [hp] at hstep
    cases hstep
    obtain ⟨e1, e2, e3, e4⟩ := readyM_spec d.rh
    refine ⟨by rw [e1], e2, e3, e4, ?_, ?_⟩
    · rw [e1]
      by_cases hr : d.rh.r <;> simp [hr]
    · intro hr
      simp [e1, hr]

/-- C3 witness: a concrete RDY step on a state with an open Output and
Response issues exactly one handshake offer and clears both. -/
theorem C3_ready_clears_and_offers_witness :
    stepReadyTag ⟨⟨1, true, some 0, [], [(0, RVar.plain)], false⟩, 0⟩
      [[49], [48], [48], [48], [53]] =
      GoRes.ok ⟨⟨1, false, none, [0], [(0, RVar.plain)], false⟩, 1⟩ ∧
    (⟨1, false, none, [0], [(0, RVar.plain)], false⟩ : RState).c = none := by
  have h := C3_ready_clears_and_offers ⟨⟨1, true, some 0, [], [(0, RVar.plain)], false⟩, 0⟩
    [[49], [48], [48], [48], [53]]
    ⟨⟨1, false, none, [0], [(0, RVar.plain)], false⟩, 1⟩ (by decide)
  exact ⟨by decide, h.2.1⟩

/-- C5: `internalError` leaves the multiplexer unchanged whenever a
response is currently open, and opens a fresh InternalError response only
when none is open (requiring a bound Output, as `newResponse` does). -/
theorem C5_internalError_frame :
    (∀ (s : RState) (i : Nat), s.c = some i → internalErrorM s = some s) ∧
    (∀ s : RState, s.c = none → s.r = true →
      internalErrorM s =
        some { s with
          c := some s.nextId
          nextId := s.nextId + 1
          vars := (s.nextId, RVar.internalError) :: s.vars }) := by
  constructor
  · intro s i hi
    unfold internalErrorM
    rw [hi]
  · intro s hc hr
    unfold internalErrorM newResponseM
    rw [hc]
    simp [hr]

/-- C5 witness: with response 1 open, `internalError` is the identity;
with no open response it opens a fresh InternalError response. -/
theorem C5_internalError_frame_witness :
    internalErrorM ⟨3, true, some 1, [0], [(1, RVar.run)], false⟩ =
      some ⟨3, true, some 1, [0], [(1, RVar.run)], false⟩ ∧
    internalErrorM ⟨3, true, none, [0], [], false⟩ =
      some ⟨4, true, some 3, [0], [(3, RVar.internalError)], false⟩ := by
  constructor
  · exact C5_internalError_frame.1 ⟨3, true, some 1, [0], [(1, RVar.run)], false⟩ 1 rfl
  · have h := C5_internalError_frame.2 ⟨3, true, none, [0], [], false⟩ rfl rfl
    rw [h]

/-- C4 (code bug): `parseResponse` sets the "response output not of
required form" error when the field count differs from 4 but does not
return, so with 0 or 1 fields the fall-through `tagFields[:2]` slice
panics instead of surfacing the error; with 2, 3 or 5 integer fields the
length error is overwritten, and an error is still returned only because
the second `parseHistoryPosition` sees a wrong field count.  Only exactly
4 integer fields decode successfully. -/
theorem C4_parseResponse_short_fields_panic :
    parseResponse [] = GoRes.panicked ∧
    parseResponse [[49]] = GoRes.panicked ∧
    parseResponse [[49], [50]] = GoRes.err "position output not of required form" ∧
    parseResponse [[49], [50], [51]] =
      GoRes.err "position output not of required form" ∧
    parseResponse [[49], [50], [51], [52]] = GoRes.ok ⟨⟨1, 2⟩, ⟨3, 4⟩⟩ ∧
    parseResponse [[49], [50], [51], [52], [53]] =
      GoRes.err "position output not of required form" ∧
    parseResponse [[49], [97], [51], [52]] =
      GoRes.err "strconv.Atoi: invalid syntax" := by
  refine ⟨?_, ?_, ?_, ?_, ?_, ?_, ?_⟩ <;> decide

/-! ## `chunk.get` (response.go) -/

/-- Go indexing `l[i]` with an `int` index: panics outside `[0, len)`. -/
def goIndex {α : Type} (l : List α) (i : Int) (dflt : α) : GoRes α :=
  if 0 ≤ i ∧ i < (l.length : Int) then GoRes.ok (l.getD i.toNat dflt)
  else GoRes.panicked

/-- Go slicing `l[i:]`: panics outside `[0, len]`. -/
def goSliceFrom (l : List Char) (i : Int) : GoRes (List Char) :=
  if 0 ≤ i ∧ i ≤ (l.length : Int) then GoRes.ok (l.drop i.toNat)
  else GoRes.panicked

/-- Go slicing `l[:j]`: panics outside `[0, len]`. -/
def goSliceTo (l : List Char) (j : Int) : GoRes (List Char) :=
  if 0 ≤ j ∧ j ≤ (l.length : Int) then GoRes.ok (l.take j.toNat)
  else GoRes.panicked

/-- `chunk.get`: split the input on newlines, return "Invalid chunk" when
either row is at least the line count, else concatenate the start row's
suffix from the start column, `"\n" + lines[i]` for every row strictly
between the rows, and the end row's prefix up to the end column.  The
loop cannot fault once the first index check has passed, so it is modelled
as a fold over all candidate indexes. -/
def chunkGet (c : chunk) (input : List Char) : GoRes (List Char) :=
  let lines := splitOnChar '\n' input
  if (lines.length : Int) ≤ c.startP.Row ∨ (lines.length : Int) ≤ c.endP.Row then
    GoRes.ok (str "Invalid chunk")
  else
    match goIndex lines c.startP.Row [] with
    | GoRes.err m => GoRes.err m
    | GoRes.panicked => GoRes.panicked
    | GoRes.ok firstLine =>
      match goSliceFrom firstLine c.startP.Column with
      | GoRes.err m => GoRes.err m
      | GoRes.panicked => GoRes.panicked
      | GoRes.ok firstPart =>
        let withMid :=
          (List.range lines.length).foldl
            (fun acc i =>
              if c.startP.Row + 1 ≤ ((i : Nat) : Int) ∧ ((i : Nat) : Int) < c.endP.Row then
                acc ++ '\n' :: lines.getD i []
              else acc)
            firstPart
        match goIndex lines c.endP.Row [] with
        | GoRes.err m => GoRes.err m
        | GoRes.panicked => GoRes.panicked
        | GoRes.ok lastLine =>
          match goSliceTo lastLine c.endP.Column with
          | GoRes.err m => GoRes.err m
          | GoRes.panicked => GoRes.panicked
          | GoRes.ok lastPart => GoRes.ok (withMid ++ lastPart)

/-- C6 (code bug): `chunk.get` does not return the half-open substring
spanned by the chunk.  With equal start and end rows it returns the
row's suffix from the start column concatenated with the row's prefix up
to the end column ("bcdefabc" instead of "bc"), and with distinct rows it
omits the newline separating the second-to-last row from the last
("abc" instead of "ab\nc"). -/
theorem C6_chunk_get_not_span :
    chunkGet ⟨⟨0, 1⟩, ⟨0, 3⟩⟩ (str "abcdef") = GoRes.ok (str "bcdefabc") ∧
    str "bcdefabc" ≠ str "bc" ∧
    chunkGet ⟨⟨0, 0⟩, ⟨1, 1⟩⟩ (str "ab\ncd") = GoRes.ok (str "abc") ∧
    str "abc" ≠ str "ab\nc" := by
  refine ⟨?_, ?_, ?_, ?_⟩ <;> decide

/-! ## The process lifecycle: `Quit` (proc.go)

Only the state C9 depends on is modelled: whether the process is running
(`p.cmd`/`p.cmd.Process` non-nil), whether the capacity-1 `p.quit`
(resp. `p.interrupt`) registration channel is occupied, and the log of
command strings submitted to the child's input stream.  `Execute`'s
handshake and Output plumbing are abstracted to appending the submitted
command to that log; channel blocking is out of scope. -/

structure PState where
  running : Bool
  quitReg : Bool
  interruptReg : Bool
  commands : List String
deriving DecidableEq, Repr

/-- `Process.checkRunning`. -/
def checkRunningM (s : PState) : Option String :=
  if s.running then none else some "magma/proc: process not started"

/-- `Process.Execute` (the C9-relevant effect): check the process is
running, then submit the command text to the child's input stream. -/
def ExecuteM (s : PState) (cmd : String) : PState × GoRes Unit :=
  match checkRunningM s with
  | some m => (s, GoRes.err m)
  | none => ({ s with commands := s.commands ++ [cmd] }, GoRes.ok ())

/-- `Process.Quit`: check the process is running; register the one-shot
quit-acknowledgment channel into the capacity-1 `p.quit` (the `select`
default branch returns the "already been called" error when it is
occupied); then submit the literal "quit;" command via `Execute` and
discard its output. -/
def QuitM (s : PState) : PState × GoRes Unit :=
  match checkRunningM s with
  | some m => (s, GoRes.err m)
  | none =>
    if s.quitReg then (s, GoRes.err "magma/proc: Quit() has already been called")
    else
      let s1 := { s with quitReg := true }
      match ExecuteM s1 "quit;" with
      | (s2, GoRes.ok _) => (s2, GoRes.ok ())
      | (s2, GoRes.err m) => (s2, GoRes.err m)
      | (s2, GoRes.panicked) => (s2, GoRes.panicked)

/-- C9: on a running process with the quit registration still pending, a
second `Quit()` returns an error and leaves the submitted-command log
unchanged (no second quit command); and concretely, a first `Quit()` on a
running, unregistered process submits exactly one "quit;" and succeeds,
after which a second `Quit()` errors without submitting another. -/
theorem C9_quit_twice :
    (∀ s : PState, s.running = true → s.quitReg = true →
      QuitM s = (s, GoRes.err "magma/proc: Quit() has already been called")) ∧
    (∀ s : PState, s.running = true → s.quitReg = false →
      (QuitM s).1.commands = s.commands ++ ["quit;"] ∧
      (QuitM s).2 = GoRes.ok () ∧
      QuitM (QuitM s).1 =
        ((QuitM s).1, GoRes.err "magma/proc: Quit() has already been called")) := by
  constructor
  · intro s hrun hreg
    unfold QuitM checkRunningM
    simp [hrun, hreg]
  · intro s hrun hreg
    unfold QuitM ExecuteM checkRunningM
    simp [hrun, hreg]

/-- C9 witness: a concrete running process; the first `Quit` submits
"quit;", the second returns the already-called error with no new
command. -/
theorem C9_quit_twice_witness :
    QuitM ⟨true, false, false, []⟩ = (⟨true, true, false, ["quit;"]⟩, GoRes.ok ()) ∧
    QuitM ⟨true, true, false, ["quit;"]⟩ =
      (⟨true, true, false, ["quit;"]⟩,
        GoRes.err "magma/proc: Quit() has already been called") := by
  constructor
  · have h := (C9_quit_twice.2 ⟨true, false, false, []⟩ rfl rfl).2.1
    decide
  · exact C9_quit_twice.1 ⟨true, true, false, ["quit;"]⟩ rfl rfl

/-! ## parse package: the traceback parser (tb.go)

The line consumer trims each fetched line; "fetched but not yet
consumed" is modelled by keeping the line at the head of the remaining
list.  `parseTracebackLocation` is entered from `parseTracebackParam`
with the `")"`-prefixed line still unconsumed, so its loop always
processes exactly that line through its `")"` branch; the embedding
fuses the two states accordingly. -/

/-- `leftParam` / `rightParam` (parse package constants). -/
def leftParam : List Char := str "("

def rightParam : List Char := str ")"

/-- `Location` (tb.go). -/
structure TbLoc where
  File : List Char
  Row : Int
  Glue : List Char
deriving DecidableEq, Repr

/-- `Traceback` (tb.go); `Params` are name/value pairs. -/
structure Traceback where
  Index : Int
  Current : Bool
  Name : List Char
  Params : List (List Char × List Char)
  Location : TbLoc
deriving DecidableEq, Repr

/-- `NoIndex`. -/
def NoIndex : Int := -1

/-- The Go zero value `Traceback{}` installed by `start`. -/
def zeroTraceback : Traceback := ⟨0, false, [], [], ⟨[], 0, []⟩⟩

/-- What the traceback parser's output channel carries: a completed
record or a delivered error value. -/
inductive TbItem where
  | tb (t : Traceback)
  | fail
deriving DecidableEq, Repr

/-- How the parser run terminates: normal channel close or a Go panic. -/
inductive TbEnd where
  | closed
  | panicked
deriving DecidableEq, Repr

/-- The traceback parser's states (`parseTraceback` /
`parseTracebackParam`; `parseTracebackLocation` is fused into the
`")"`-branch of `params`, see above). -/
inductive TbSt where
  | top (cur : Traceback)
  | params (cur : Traceback)
deriving DecidableEq, Repr

/-- One run of the traceback parser state machine over the remaining
lines, returning the delivered output items and how the run ended. -/
def tbStep : TbSt → List (List Char) → List TbItem × TbEnd
  | TbSt.top _, [] => ([], TbEnd.closed)
  | TbSt.top c, l :: ls =>
    let line := trimSpace l
    let name := goTrimSuf leftParam line
    if name.length < line.length then
      let cur0 : Traceback := { zeroTraceback with Name := name, Index := NoIndex }
      let ln := goTrimPre (str "#") name
      if ln.length < name.length then
        let lnf := goFields ln
        if lnf.length ≠ 2 then
          -- Source bug: the `fmt.Errorf` result is discarded, `p.err`
          -- stays nil, and `parseTracebackError` panics on the nil error.
          ([], TbEnd.panicked)
        else
          match atoiC (lnf.getD 0 []) with
          | none => ([TbItem.fail], TbEnd.closed)
          | some idx =>
            let f1 := lnf.getD 1 []
            let nm := goTrimPre (str "*") f1
            let cur1 := { cur0 with
              Index := idx
              Name := nm
              Current := decide (nm.length < f1.length) }
            tbStep (TbSt.params cur1) ls
      else tbStep (TbSt.params cur0) ls
    else tbStep (TbSt.top c) ls
  | TbSt.params _, [] => ([], TbEnd.panicked)
  | TbSt.params c, l :: ls =>
    let line := trimSpace l
    if rightParam.isPrefixOf line then
      match splitOnceSub (str " at ") line with
      | none =>
        let rest := tbStep (TbSt.top c) ls
        (TbItem.tb c :: rest.1, rest.2)
      | some p =>
        match lastIndexOf ':' p.2 with
        | none => ([TbItem.fail], TbEnd.closed)
        | some idx =>
          match atoiC (p.2.drop (idx + 1)) with
          | none => ([TbItem.fail], TbEnd.closed)
          | some n =>
            let c1 := { c with Location := (⟨p.2.take idx, n, []⟩ : TbLoc) }
            let rest := tbStep (TbSt.top c1) ls
            (TbItem.tb c1 :: rest.1, rest.2)
    else
      match splitOnceSub (str ": ") line with
      | none => ([TbItem.fail], TbEnd.closed)
      | some p =>
        let v1 := goTrimSuf (str ",") p.2
        tbStep (TbSt.params { c with Params := c.Params ++ [(p.1, v1)] }) ls

/-- The whole parser as started by `run` (initial state `parseTraceback`
with the zero `Traceback` current). -/
def tbRun (lines : List (List Char)) : List TbItem × TbEnd :=
  tbStep (TbSt.top zeroTraceback) lines

/-- C8 (code bug): on a '#'-prefixed function-call header that does not
split into exactly two fields, the traceback parser transitions to
`parseTracebackError` with `p.err` still nil (the `fmt.Errorf` result is
discarded) and panics, delivering nothing — instead of delivering a
single error value as the claim states.  A well-formed indexed header on
the same path parses fine. -/
theorem C8_traceback_bad_header_panics :
    tbRun [str "#1("] = ([], TbEnd.panicked) ∧
    tbRun [str "#0 *Test(", str "x: 0", str ")", str ""] =
      ([TbItem.tb ⟨0, true, str "Test", [(str "x", str "0")], ⟨[], 0, []⟩⟩],
        TbEnd.closed) := by
  constructor <;> decide

/-! ## parse package: the error-position parser (epo.go)

`ErrorPosition` is the parse package's record: file-or-eval flag, row,
column, source fragment, and an owned optional chain to an enclosing
position.  The Go parser builds the chain by mutation through a
`currentSub` tail pointer; the embedding keeps the root's data and the
appended links in reverse order (`linksRev`, head = `currentSub`) and
reconstitutes the nested record at the end. -/

/-- The data of one `ErrorPosition` node (all fields but `LocatedIn`). -/
structure EPNodeData where
  File : List Char
  Eval : Bool
  Row : Int
  Column : Int
  SourceFragment : List Char
deriving DecidableEq, Repr

/-- `ErrorPosition` with its owned `LocatedIn` chain. -/
inductive ErrorPosition where
  | node (data : EPNodeData) (locatedIn : Option ErrorPosition)

/-- Equality of chains is decidable (the chain is finite by
construction — this is the "no cycles" guarantee of the embedding). -/
def ErrorPosition.decEq : (a b : ErrorPosition) → Decidable (a = b)
  | ErrorPosition.node d1 none, ErrorPosition.node d2 none =>
    if h : d1 = d2 then isTrue (by rw [h])
    else isFalse (by intro he; cases he; exact h rfl)
  | ErrorPosition.node d1 (some e1), ErrorPosition.node d2 (some e2) =>
    match ErrorPosition.decEq e1 e2 with
    | isTrue h2 =>
      if h : d1 = d2 then isTrue (by rw [h, h2])
      else isFalse (by intro he; cases he; exact h rfl)
    | isFalse h2 => isFalse (by intro he; cases he; exact h2 rfl)
  | ErrorPosition.node _ none, ErrorPosition.node _ (some _) =>
    isFalse (by intro he; simp at he)
  | ErrorPosition.node _ (some _), ErrorPosition.node _ none =>
    isFalse (by intro he; simp at he)

instance : DecidableEq ErrorPosition := ErrorPosition.decEq

/-- The chain under construction: `root` is `p.current`'s own data,
`linksRev` the appended `LocatedIn` nodes, most recent first
(`p.currentSub` is its head). -/
structure EPBuild where
  root : EPNodeData
  linksRev : List EPNodeData
deriving DecidableEq, Repr

/-- `parseSourceFragment`'s assignment: the fragment goes to
`p.currentSub` when one exists, else to `p.current`. -/
def setFrag (b : EPBuild) (f : List Char) : EPBuild :=
  match b.linksRev with
  | [] => { b with root := { b.root with SourceFragment := f } }
  | n :: t => { b with linksRev := { n with SourceFragment := f } :: t }

/-- `parseLocatedInExpression`'s chain append: link the new node at
`p.current.LocatedIn` when the chain is empty, else at
`p.currentSub.LocatedIn`; the new node becomes `p.currentSub`. -/
def appendNode (b : EPBuild) (d : EPNodeData) : EPBuild :=
  { b with linksRev := d :: b.linksRev }

/-- Turn a forward-ordered list of nodes into the nested chain. -/
def chainOf : List EPNodeData → Option ErrorPosition
  | [] => none
  | d :: t => some (ErrorPosition.node d (chainOf t))

/-- The finished record delivered by `run`. -/
def buildEP (b : EPBuild) : ErrorPosition :=
  ErrorPosition.node b.root (chainOf b.linksRev.reverse)

/-- Length of the chain: one for the root plus one per `LocatedIn` link. -/
def epDepth : ErrorPosition → Nat
  | ErrorPosition.node _ none => 1
  | ErrorPosition.node _ (some e) => epDepth e + 1

/-- The final node of the chain. -/
def epDeepest : ErrorPosition → EPNodeData
  | ErrorPosition.node d none => d
  | ErrorPosition.node _ (some e) => epDeepest e

/-- Go slicing `l[i:j]`: panics unless `0 ≤ i ≤ j ≤ len`. -/
def goSliceRange (l : List Char) (i j : Int) : GoRes (List Char) :=
  if 0 ≤ i ∧ i ≤ j ∧ j ≤ (l.length : Int) then
    GoRes.ok ((l.take j.toNat).drop i.toNat)
  else GoRes.panicked

/-- `extractRowColumnFromFieldsSplit` (parse package): expects exactly
two comma-split fields `[at] line R` and `column C`.  The source indexes
`lineSplit[len(lineSplit)-1]` and `strings.Fields(fields[1])[1]`, which
panic when the tokenizations are too short. -/
def extractRowColumnFromFieldsSplit : List (List Char) → GoRes (Int × Int)
  | [a, b] =>
    match (goFields a).getLast? with
    | none => GoRes.panicked
    | some lastTok =>
      match atoiC lastTok with
      | none => GoRes.err "strconv.Atoi: invalid syntax"
      | some row =>
        match (goFields b).get? 1 with
        | none => GoRes.panicked
        | some t2 =>
          match atoiC t2 with
          | none => GoRes.err "strconv.Atoi: invalid syntax"
          | some col => GoRes.ok (row, col)
  | _ => GoRes.err "expect 2 elements in expansion of line/column location data"

/-- `extractRowColumnFromString`. -/
def extractRowColumnFromString (input : List Char) : GoRes (Int × Int) :=
  extractRowColumnFromFieldsSplit (splitCommas input)

/-- `extractFileRowColumn`: comma-split, take `commaSplit[0]` as the file
and the last two segments as row/column.  The `len < 3` error assignment
is missing a `return` in the source and is always overwritten; with
fewer than 2 segments the indexing/slicing panics. -/
def extractFileRowColumn (input : List Char) : GoRes (List Char × Int × Int) :=
  let cs := splitCommas input
  match cs with
  | [] => GoRes.panicked
  | [_] => GoRes.panicked
  | f :: _ :: _ =>
    match extractRowColumnFromFieldsSplit (cs.drop (cs.length - 2)) with
    | GoRes.err m => GoRes.err m
    | GoRes.panicked => GoRes.panicked
    | GoRes.ok rc => GoRes.ok (f, rc.1, rc.2)

/-- The parser's states: `parseTopLevel`, `parseSourceFragment`,
`parseLocatedInExpression`.  Every continuing transition consumes the
fetched line, so the machine recurses structurally on the remaining
lines; ending states carry what `run` needs. -/
inductive EPSt where
  | top
  | frag (b : EPBuild)
  | loc (b : EPBuild)
deriving DecidableEq, Repr

/-- How a parser run ends: `res err? build?` (the loop finished, with
`p.err` and `p.current`), or a Go panic inside a helper. -/
inductive EPResult where
  | res (e : Option String) (b : Option EPBuild)
  | panicked
deriving DecidableEq, Repr

/-- The error-position state machine (`epo.go`), one line per step. -/
def epoStep : EPSt → List (List Char) → EPResult
  | EPSt.top, [] => EPResult.res none none
  | EPSt.top, l :: ls =>
    let line := trimSpace l
    let e1 := goTrimPre (str "In eval expression, ") line
    if e1.length < line.length then
      match goSliceTo e1 ((e1.length : Int) - 1) with
      | GoRes.err _ => EPResult.panicked
      | GoRes.panicked => EPResult.panicked
      | GoRes.ok e2 =>
        match extractRowColumnFromString e2 with
        | GoRes.err m => EPResult.res (some m) none
        | GoRes.panicked => EPResult.panicked
        | GoRes.ok rc =>
          epoStep (EPSt.frag ⟨⟨[], true, rc.1, rc.2, []⟩, []⟩) ls
    else
      let f1 := goTrimPre (str "In file ") line
      if f1.length < line.length then
        match extractFileRowColumn f1 with
        | GoRes.err m => EPResult.res (some m) none
        | GoRes.panicked => EPResult.panicked
        | GoRes.ok frc =>
          match goSliceRange frc.1 1 ((frc.1.length : Int) - 1) with
          | GoRes.err _ => EPResult.panicked
          | GoRes.panicked => EPResult.panicked
          | GoRes.ok file2 =>
            epoStep (EPSt.frag ⟨⟨file2, false, frc.2.1, frc.2.2, []⟩, []⟩) ls
      else EPResult.res none none
  | EPSt.frag b, [] => EPResult.res (some "expected source fragment line") (some b)
  | EPSt.frag b, l :: ls =>
    let line := trimSpace l
    let g := goTrimPre (str ">> ") line
    if g.length < line.length then epoStep (EPSt.loc (setFrag b g)) ls
    else EPResult.res (some "expected source fragment line") (some b)
  | EPSt.loc b, [] => EPResult.res none (some b)
  | EPSt.loc b, l :: ls =>
    let line := trimSpace l
    let g := goTrimPre (str "Located in") line
    if g.length < line.length then
      let e2 := goTrimPre (str " enclosing eval expression, at ") g
      if e2.length < g.length then
        match goSliceTo e2 ((e2.length : Int) - 1) with
        | GoRes.err _ => EPResult.panicked
        | GoRes.panicked => EPResult.panicked
        | GoRes.ok e3 =>
          match extractRowColumnFromString e3 with
          | GoRes.err m => EPResult.res (some m) (some b)
          | GoRes.panicked => EPResult.panicked
          | GoRes.ok rc =>
            epoStep (EPSt.frag (appendNode b ⟨[], true, rc.1, rc.2, []⟩)) ls
      else
        let f2 := goTrimPre (str " file ") g
        if f2.length < g.length then
          match goSliceTo f2 ((f2.length : Int) - 1) with
          | GoRes.err _ => EPResult.panicked
          | GoRes.panicked => EPResult.panicked
          | GoRes.ok f3 =>
            match extractFileRowColumn f3 with
            | GoRes.err m => EPResult.res (some m) (some b)
            | GoRes.panicked => EPResult.panicked
            | GoRes.ok frc =>
              match goSliceRange frc.1 1 ((frc.1.length : Int) - 1) with
              | GoRes.err _ => EPResult.panicked
              | GoRes.panicked => EPResult.panicked
              | GoRes.ok file2 =>
                epoStep (EPSt.frag (appendNode b ⟨file2, false, frc.2.1, frc.2.2, []⟩)) ls
        else if g = str ":" then
          epoStep (EPSt.frag (appendNode b ⟨[], false, 0, 0, []⟩)) ls
        else EPResult.res (some "Located in line with unrecognised suffix") (some b)
    else EPResult.res none (some b)

/-- What the parser's output channel carries. -/
inductive EPOut where
  | emit (e : ErrorPosition)
  | fail (m : String)
deriving DecidableEq

/-- `ErrorPositionParser.run`: drive the machine from `parseTopLevel`;
afterwards, a set error is delivered as a single error value, else a set
`p.current` is delivered as the one record; then the channel closes. -/
def epoOutput (lines : List (List Char)) : GoRes (List EPOut) :=
  match epoStep EPSt.top lines with
  | EPResult.panicked => GoRes.panicked
  | EPResult.res (some m) _ => GoRes.ok [EPOut.fail m]
  | EPResult.res none (some b) => GoRes.ok [EPOut.emit (buildEP b)]
  | EPResult.res none none => GoRes.ok []

/-- C7 counterexample: a top-level `In file "...", line R, column C:`
position line — recognized per the spec — does not produce a record: the
source passes the line to `extractFileRowColumn` without stripping the
trailing colon, `strconv.Atoi("2:")` fails, and the parser delivers a
single error value instead of the chained record the claim requires. -/
theorem C7_epo_file_top_counterexample :
    epoOutput [str "In file \"/tmp/a.m\", line 1, column 2:", str ">> x;"] =
      GoRes.ok [EPOut.fail "strconv.Atoi: invalid syntax"] := by
  decide

/-! ## Lemmas about the library models, towards the C7 chain theorem -/

theorem fieldsByAux_append_no_sep {α : Type} (p : α → Bool) (xs : List α)
    (h : ∀ a ∈ xs, p a = false) :
    ∀ (cur ys : List α),
      fieldsByAux p cur (xs ++ ys) = fieldsByAux p (xs.reverse ++ cur) ys := by
  induction xs with
  | nil => intro cur ys; simp
  | cons a t ih =>
    intro cur ys
    have ha : p a = false := h a (List.mem_cons_self ..)
    have ht : ∀ b ∈ t, p b = false := fun b hb => h b (List.mem_cons_of_mem _ hb)
    simp only [List.cons_append, fieldsByAux, ha, Bool.false_eq_true, if_false]
    show fieldsByAux p (a :: cur) (t ++ ys) = _
    rw [ih ht]
    simp [List.append_assoc]

theorem fieldsByAux_sep {α : Type} (p : α → Bool) (c : α) (cur ys : List α)
    (hc : p c = true) :
    fieldsByAux p cur (c :: ys) =
      if cur.isEmpty then fieldsByAux p [] ys
      else cur.reverse :: fieldsByAux p [] ys := by
  simp [fieldsByAux, hc]

theorem fieldsBy_token_sep {α : Type} (p : α → Bool) (tok : List α) (c : α)
    (rest : List α) (htok : tok ≠ []) (hall : ∀ a ∈ tok, p a = false)
    (hc : p c = true) :
    fieldsBy p (tok ++ c :: rest) = tok :: fieldsBy p rest := by
  unfold fieldsBy
  rw [fieldsByAux_append_no_sep p tok hall [] (c :: rest)]
  rw [List.append_nil, fieldsByAux_sep p c _ _ hc]
  have hrev : tok.reverse.isEmpty = false := by
    cases tok with
    | nil => exact absurd rfl htok
    | cons a t => simp
  rw [hrev]
  simp

theorem fieldsBy_token_nil {α : Type} (p : α → Bool) (tok : List α)
    (htok : tok ≠ []) (hall : ∀ a ∈ tok, p a = false) :
    fieldsBy p tok = [tok] := by
  unfold fieldsBy
  have := fieldsByAux_append_no_sep p tok hall [] []
  rw [List.append_nil] at this
  rw [this, List.append_nil]
  have hrev : tok.reverse.isEmpty = false := by
    cases tok with
    | nil => exact absurd rfl htok
    | cons a t => simp
  simp [fieldsByAux, hrev]

theorem fieldsBy_sep_head {α : Type} (p : α → Bool) (c : α) (rest : List α)
    (hc : p c = true) : fieldsBy p (c :: rest) = fieldsBy p rest := by
  unfold fieldsBy
  rw [fieldsByAux_sep p c _ _ hc]
  simp

theorem not_space_of_digit {c : Char} (h : isDigitChar c = true) :
    isSpaceChar c = false := by
  simp only [isDigitChar, isDigitByte, Bool.and_eq_true, decide_eq_true_eq] at h
  simp only [isSpaceChar, isSpaceByte, Bool.or_eq_false_iff, beq_eq_false_iff_ne, ne_eq]
  omega

theorem not_comma_of_digit {c : Char} (h : isDigitChar c = true) :
    matchCommaRune c = false := by
  simp only [matchCommaRune, beq_eq_false_iff_ne, ne_eq]
  intro he
  subst he
  exact absurd h (by decide)

theorem digits_no_space {ds : List Char} (h : ds.all isDigitChar = true) :
    ∀ a ∈ ds, isSpaceChar a = false :=
  fun a ha => not_space_of_digit (List.all_eq_true.mp h a ha)

theorem digits_no_comma {ds : List Char} (h : ds.all isDigitChar = true) :
    ∀ a ∈ ds, matchCommaRune a = false :=
  fun a ha => not_comma_of_digit (List.all_eq_true.mp h a ha)

theorem atoiDigits_false (ds : List Nat) (h0 : ds ≠ [])
    (h1 : ds.all isDigitByte = true) (h2 : digitsValB ds < 2 ^ 63) :
    atoiDigits ds false = some ((digitsValB ds : Int)) := by
  have hnn : (0 : Int) ≤ (digitsValB ds : Int) := Int.natCast_nonneg _
  have hlow : -(2 ^ 63 : Int) ≤ (digitsValB ds : Int) := by
    have : -(2 ^ 63 : Int) ≤ 0 := by norm_num
    omega
  have hhigh : (digitsValB ds : Int) < 2 ^ 63 := by exact_mod_cast h2
  unfold atoiDigits atoiRange
  rw [if_neg h0, if_pos h1, if_neg (by simp : ¬(false = true)),
    if_pos ⟨hlow, hhigh⟩]

theorem atoiB_digits (bs : List Nat) (h0 : bs ≠ []) (h1 : bs.all isDigitByte = true)
    (h2 : digitsValB bs < 2 ^ 63) : atoiB bs = some ((digitsValB bs : Int)) := by
  match bs, h0 with
  | b :: rest, _ =>
    have hb : isDigitByte b = true := List.all_eq_true.mp h1 b (List.mem_cons_self ..)
    have hb' : 48 ≤ b ∧ b ≤ 57 := by
      simpa [isDigitByte, Bool.and_eq_true, decide_eq_true_eq] using hb
    have h43 : ¬b = 43 := by omega
    have h45 : ¬b = 45 := by omega
    show (if b = 43 then atoiDigits rest false
      else if b = 45 then atoiDigits rest true
      else atoiDigits (b :: rest) false) = _
    rw [if_neg h43, if_neg h45]
    exact atoiDigits_false (b :: rest) (by simp) h1 h2

theorem atoiC_digits (ds : List Char) (h0 : ds ≠ []) (h1 : ds.all isDigitChar = true)
    (h2 : digitsVal ds < 2 ^ 63) : atoiC ds = some ((digitsVal ds : Int)) := by
  unfold atoiC digitsVal
  apply atoiB_digits
  · simp [h0]
  · rw [List.all_eq_true]
    intro x hx
    obtain ⟨c, hc, rfl⟩ := List.mem_map.mp hx
    exact List.all_eq_true.mp h1 c hc
  · exact h2

theorem trimSpace_eq_self {l : List Char}
    (h1 : ∀ a, l.head? = some a → isSpaceChar a = false)
    (h2 : ∀ z, l.getLast? = some z → isSpaceChar z = false) :
    trimSpace l = l := by
  unfold trimSpace trimSpaceBy
  have e1 : l.dropWhile isSpaceChar = l := by
    cases hl : l with
    | nil => rfl
    | cons a t =>
      have := h1 a (by rw [hl]; rfl)
      simp [List.dropWhile_cons, this]
  rw [e1]
  have e2 : l.reverse.dropWhile isSpaceChar = l.reverse := by
    cases hr : l.reverse with
    | nil => rfl
    | cons z t =>
      have hz := h2 z (by rw [← List.head?_reverse, hr]; rfl)
      simp [List.dropWhile_cons, hz]
  rw [e2, List.reverse_reverse]

theorem isPrefixOf_append_of_le {α : Type} [DecidableEq α] :
    ∀ (pre l1 rest : List α), pre.length ≤ l1.length →
      pre.isPrefixOf (l1 ++ rest) = pre.isPrefixOf l1
  | [], l1, rest, _ => by simp [List.isPrefixOf]
  | a :: t, [], rest, h => by simp at h
  | a :: t, b :: t1, rest, h => by
    simp only [List.cons_append, List.isPrefixOf]
    show (a == b && t.isPrefixOf (t1 ++ rest)) = (a == b && t.isPrefixOf t1)
    rw [isPrefixOf_append_of_le t t1 rest (by simpa using h)]

theorem isPrefixOf_append_false {α : Type} [DecidableEq α] :
    ∀ (pre l1 rest : List α), l1.length ≤ pre.length →
      pre.take l1.length ≠ l1 → pre.isPrefixOf (l1 ++ rest) = false
  | pre, [], rest, _, hne => by simp at hne
  | [], b :: t1, rest, h, _ => by simp at h
  | a :: t, b :: t1, rest, h, hne => by
    simp only [List.cons_append, List.isPrefixOf]
    show (a == b && t.isPrefixOf (t1 ++ rest)) = false
    by_cases hab : a = b
    · subst hab
      have : t.take t1.length ≠ t1 := by
        intro he
        exact hne (by simp [List.take_succ_cons, he])
      rw [isPrefixOf_append_false t t1 rest (by simpa using h) this]
      simp
    · simp [hab]

theorem goTrimPre_of_append {α : Type} [DecidableEq α] (pre rest : List α) :
    goTrimPre pre (pre ++ rest) = rest := by
  unfold goTrimPre
  rw [if_pos, List.drop_left]
  exact List.isPrefixOf_iff_prefix.mpr (List.prefix_append pre rest)

theorem goTrimPre_of_false {α : Type} [DecidableEq α] {pre l : List α}
    (h : pre.isPrefixOf l = false) : goTrimPre pre l = l := by
  unfold goTrimPre
  rw [if_neg]
  simp [h]

theorem goTrimPre_append_length_lt {α : Type} [DecidableEq α] (pre rest : List α)
    (h : pre ≠ []) :
    (goTrimPre pre (pre ++ rest)).length < (pre ++ rest).length := by
  rw [goTrimPre_of_append]
  have : 0 < pre.length := List.length_pos.mpr h
  simp [List.length_append]
  omega

theorem goSliceTo_concat (X : List Char) (z : Char) :
    goSliceTo (X ++ [z]) (((X ++ [z]).length : Int) - 1) = GoRes.ok X := by
  unfold goSliceTo
  have hlen : (X ++ [z]).length = X.length + 1 := by simp
  rw [if_pos]
  · congr 1
    have hj : (((X ++ [z]).length : Int) - 1).toNat = X.length := by
      rw [hlen]; omega
    rw [hj]
    exact List.take_left X [z]
  · rw [hlen]
    constructor <;> omega

theorem goSliceRange_quotes (F : List Char) :
    goSliceRange ('"' :: (F ++ ['"'])) 1
      ((('"' :: (F ++ ['"'])).length : Int) - 1) = GoRes.ok F := by
  unfold goSliceRange
  have hlen : ('"' :: (F ++ ['"'])).length = F.length + 2 := by simp
  rw [if_pos]
  · congr 1
    have hj : (((('"' :: (F ++ ['"'])).length : Int)) - 1).toNat = F.length + 1 := by
      rw [hlen]; omega
    rw [hj]
    have htake : ('"' :: (F ++ ['"'])).take (F.length + 1) = '"' :: F := by
      rw [List.take_succ_cons]
      congr 1
      exact List.take_left F ['"']
    rw [htake]
    rfl
  · rw [hlen]
    refine ⟨by omega, by omega, by omega⟩

/-! ## C7: well-formed eval-rooted chain inputs and their parse

A chain input is a top-level eval-expression position line, a fragment
line, then per link a `Located in ...` line (one of the three recognized
forms) and its fragment line.  Rows and columns are carried as their
decimal digit strings; files must be comma-free (a comma would shift the
comma-split); fragments must survive the line consumer's `TrimSpace`. -/

/-- One `Located in` link: enclosing eval expression, enclosing file, or
the bare terminator `Located in:`. -/
inductive LinkSpec where
  | evalL (rds cds : List Char)
  | fileL (F rds cds : List Char)
  | termL
deriving DecidableEq, Repr

/-- The raw line for a link, as emitted by the engine. -/
def renderLink : LinkSpec → List Char
  | LinkSpec.evalL rds cds =>
    str "Located in enclosing eval expression, at line " ++ rds ++
      str ", column " ++ cds ++ str ":"
  | LinkSpec.fileL F rds cds =>
    str "Located in file " ++ ('"' :: (F ++ ['"'])) ++ str ", at line " ++ rds ++
      str ", column " ++ cds ++ str ":"
  | LinkSpec.termL => str "Located in:"

/-- The raw source-fragment line. -/
def renderFrag (f : List Char) : List Char := str ">> " ++ f

/-- The raw top-level eval-expression position line. -/
def renderEvalTop (rds cds : List Char) : List Char :=
  str "In eval expression, line " ++ rds ++ str ", column " ++ cds ++ str ":"

/-- The node a link parses to, given its fragment. -/
def nodeOfLink : LinkSpec → List Char → EPNodeData
  | LinkSpec.evalL rds cds, f =>
    ⟨[], true, (digitsVal rds : Int), (digitsVal cds : Int), f⟩
  | LinkSpec.fileL F rds cds, f =>
    ⟨F, false, (digitsVal rds : Int), (digitsVal cds : Int), f⟩
  | LinkSpec.termL, f => ⟨[], false, 0, 0, f⟩

/-- The link/fragment line pairs of a chain input. -/
def renderItems : List (LinkSpec × List Char) → List (List Char)
  | [] => []
  | (l, f) :: t => renderLink l :: renderFrag f :: renderItems t

/-- The build after appending all items (each appended node carrying its
fragment). -/
def finishB (b : EPBuild) (items : List (LinkSpec × List Char)) : EPBuild :=
  { b with
    linksRev := (items.map fun it => nodeOfLink it.1 it.2).reverse ++ b.linksRev }

/-- A decimal digit string within the 64-bit range. -/
def wfDigits (ds : List Char) : Prop :=
  ds ≠ [] ∧ ds.all isDigitChar = true ∧ digitsVal ds < 2 ^ 63

/-- The fragment survives the line consumer's trimming. -/
def wfFrag (f : List Char) : Prop := trimSpace (renderFrag f) = renderFrag f

instance (f : List Char) : Decidable (wfFrag f) := by
  unfold wfFrag
  infer_instance

/-- Well-formedness of one link. -/
def wfLink : LinkSpec → Prop
  | LinkSpec.evalL rds cds => wfDigits rds ∧ wfDigits cds
  | LinkSpec.fileL F rds cds =>
    wfDigits rds ∧ wfDigits cds ∧ F.all (fun c => !matchCommaRune c) = true
  | LinkSpec.termL => True

theorem digits_ne_nil {ds : List Char} (h : wfDigits ds) : ds ≠ [] := h.1

theorem goFields_line (rds : List Char) (h0 : rds ≠ [])
    (h1 : rds.all isDigitChar = true) :
    goFields (str "line " ++ rds) = [str "line", rds] := by
  have e : str "line " ++ rds = str "line" ++ (' ' :: rds) := by
    rw [show str "line " = str "line" ++ [' '] from by decide]
    simp
  rw [e]
  unfold goFields
  rw [fieldsBy_token_sep isSpaceChar (str "line") ' ' rds (by decide) (by decide)
    (by decide)]
  rw [fieldsBy_token_nil isSpaceChar rds h0 (digits_no_space h1)]

theorem goFields_at_line (rds : List Char) (h0 : rds ≠ [])
    (h1 : rds.all isDigitChar = true) :
    goFields (str " at line " ++ rds) = [str "at", str "line", rds] := by
  have e : str " at line " ++ rds =
      ' ' :: (str "at" ++ (' ' :: (str "line" ++ (' ' :: rds)))) := by
    rw [show str " at line " =
      ' ' :: (str "at" ++ (' ' :: (str "line" ++ [' ']))) from by decide]
    simp
  rw [e]
  unfold goFields
  rw [fieldsBy_sep_head isSpaceChar ' ' _ (by decide)]
  rw [fieldsBy_token_sep isSpaceChar (str "at") ' ' _ (by decide) (by decide)
    (by decide)]
  rw [fieldsBy_token_sep isSpaceChar (str "line") ' ' rds (by decide) (by decide)
    (by decide)]
  rw [fieldsBy_token_nil isSpaceChar rds h0 (digits_no_space h1)]

theorem goFields_column (cds : List Char) (h0 : cds ≠ [])
    (h1 : cds.all isDigitChar = true) :
    goFields (str " column " ++ cds) = [str "column", cds] := by
  have e : str " column " ++ cds = ' ' :: (str "column" ++ (' ' :: cds)) := by
    rw [show str " column " = ' ' :: (str "column" ++ [' ']) from by decide]
    simp
  rw [e]
  unfold goFields
  rw [fieldsBy_sep_head isSpaceChar ' ' _ (by decide)]
  rw [fieldsBy_token_sep isSpaceChar (str "column") ' ' cds (by decide) (by decide)
    (by decide)]
  rw [fieldsBy_token_nil isSpaceChar cds h0 (digits_no_space h1)]

theorem extract_rcfs_pair (seg1 seg2 : List Char) (toks1 toks2 : List (List Char))
    (rds cds : List Char) (hr : wfDigits rds) (hc : wfDigits cds)
    (h1 : goFields seg1 = toks1) (h2 : goFields seg2 = toks2)
    (hlast : toks1.getLast? = some rds) (hidx : toks2.get? 1 = some cds) :
    extractRowColumnFromFieldsSplit [seg1, seg2] =
      GoRes.ok ((digitsVal rds : Int), (digitsVal cds : Int)) := by
  simp only [extractRowColumnFromFieldsSplit, h1, h2, hlast, hidx,
    atoiC_digits rds hr.1 hr.2.1 hr.2.2, atoiC_digits cds hc.1 hc.2.1 hc.2.2]

theorem splitCommas_line_col (rds cds : List Char) (hr : wfDigits rds)
    (hc : wfDigits cds) :
    splitCommas (str "line " ++ rds ++ str ", column " ++ cds) =
      [str "line " ++ rds, str " column " ++ cds] := by
  have e : str "line " ++ rds ++ str ", column " ++ cds =
      (str "line " ++ rds) ++ (',' :: (str " column " ++ cds)) := by
    rw [show str ", column " = ',' :: str " column " from by decide]
    simp
  have hne1 : str "line " ++ rds ≠ [] := fun h =>
    (by decide : str "line " ≠ []) (List.append_eq_nil.mp h).1
  have hne2 : str " column " ++ cds ≠ [] := fun h =>
    (by decide : str " column " ≠ []) (List.append_eq_nil.mp h).1
  have hnc1 : ∀ a ∈ str "line " ++ rds, matchCommaRune a = false := by
    intro a ha
    rcases List.mem_append.mp ha with h | h
    · exact (by decide : ∀ x ∈ str "line ", matchCommaRune x = false) a h
    · exact digits_no_comma hr.2.1 a h
  have hnc2 : ∀ a ∈ str " column " ++ cds, matchCommaRune a = false := by
    intro a ha
    rcases List.mem_append.mp ha with h | h
    · exact (by decide : ∀ x ∈ str " column ", matchCommaRune x = false) a h
    · exact digits_no_comma hc.2.1 a h
  rw [e]
  unfold splitCommas
  rw [fieldsBy_token_sep matchCommaRune (str "line " ++ rds) ',' _
    hne1 hnc1 (by decide)]
  rw [fieldsBy_token_nil matchCommaRune (str " column " ++ cds) hne2 hnc2]

theorem extract_rcs_eval (rds cds : List Char) (hr : wfDigits rds)
    (hc : wfDigits cds) :
    extractRowColumnFromString (str "line " ++ rds ++ str ", column " ++ cds) =
      GoRes.ok ((digitsVal rds : Int), (digitsVal cds : Int)) := by
  unfold extractRowColumnFromString
  rw [splitCommas_line_col rds cds hr hc]
  exact extract_rcfs_pair _ _ _ _ rds cds hr hc
    (goFields_line rds hr.1 hr.2.1) (goFields_column cds hc.1 hc.2.1) rfl rfl

theorem splitCommas_file (F rds cds : List Char)
    (hF : F.all (fun c => !matchCommaRune c) = true)
    (hr : wfDigits rds) (hc : wfDigits cds) :
    splitCommas (('"' :: (F ++ ['"'])) ++ str ", at line " ++ rds ++
        str ", column " ++ cds) =
      ['"' :: (F ++ ['"']), str " at line " ++ rds, str " column " ++ cds] := by
  have hFm : ∀ a ∈ '"' :: (F ++ ['"']), matchCommaRune a = false := by
    intro a ha
    rcases List.mem_cons.mp ha with rfl | ha
    · decide
    rcases List.mem_append.mp ha with h | h
    · have := List.all_eq_true.mp hF a h
      simpa using this
    · simp only [List.mem_singleton] at h
      subst h
      decide
  have e : ('"' :: (F ++ ['"'])) ++ str ", at line " ++ rds ++
        str ", column " ++ cds =
      ('"' :: (F ++ ['"'])) ++
        (',' :: ((str " at line " ++ rds) ++ (',' :: (str " column " ++ cds)))) := by
    rw [show str ", at line " = ',' :: str " at line " from by decide,
      show str ", column " = ',' :: str " column " from by decide]
    simp
  have hne1 : str " at line " ++ rds ≠ [] := fun h =>
    (by decide : str " at line " ≠ []) (List.append_eq_nil.mp h).1
  have hne2 : str " column " ++ cds ≠ [] := fun h =>
    (by decide : str " column " ≠ []) (List.append_eq_nil.mp h).1
  have hnc1 : ∀ a ∈ str " at line " ++ rds, matchCommaRune a = false := by
    intro a ha
    rcases List.mem_append.mp ha with h | h
    · exact (by decide : ∀ x ∈ str " at line ", matchCommaRune x = false) a h
    · exact digits_no_comma hr.2.1 a h
  have hnc2 : ∀ a ∈ str " column " ++ cds, matchCommaRune a = false := by
    intro a ha
    rcases List.mem_append.mp ha with h | h
    · exact (by decide : ∀ x ∈ str " column ", matchCommaRune x = false) a h
    · exact digits_no_comma hc.2.1 a h
  rw [e]
  unfold splitCommas
  rw [fieldsBy_token_sep matchCommaRune ('"' :: (F ++ ['"'])) ',' _
    (by simp) hFm (by decide)]
  rw [fieldsBy_token_sep matchCommaRune (str " at line " ++ rds) ',' _
    hne1 hnc1 (by decide)]
  rw [fieldsBy_token_nil matchCommaRune (str " column " ++ cds) hne2 hnc2]

theorem extract_frc_file (F rds cds : List Char)
    (hF : F.all (fun c => !matchCommaRune c) = true)
    (hr : wfDigits rds) (hc : wfDigits cds) :
    extractFileRowColumn (('"' :: (F ++ ['"'])) ++ str ", at line " ++ rds ++
        str ", column " ++ cds) =
      GoRes.ok ('"' :: (F ++ ['"']),
        (digitsVal rds : Int), (digitsVal cds : Int)) := by
  unfold extractFileRowColumn
  rw [splitCommas_file F rds cds hF hr hc]
  have hpair := extract_rcfs_pair (str " at line " ++ rds) (str " column " ++ cds)
    [str "at", str "line", rds] [str "column", cds] rds cds hr hc
    (goFields_at_line rds hr.1 hr.2.1) (goFields_column cds hc.1 hc.2.1) rfl rfl
  simp only [List.length_cons, List.length_nil]
  rw [show (0 + 1 + 1 + 1 - 2 : Nat) = 1 from rfl]
  rw [show List.drop 1 ['"' :: (F ++ ['"']), str " at line " ++ rds,
    str " column " ++ cds] = [str " at line " ++ rds, str " column " ++ cds]
    from rfl]
  rw [hpair]

theorem trimSpace_renderEvalTop (rds cds : List Char) :
    trimSpace (renderEvalTop rds cds) = renderEvalTop rds cds := by
  apply trimSpace_eq_self
  · intro a ha
    rw [show (renderEvalTop rds cds).head? = some 'I' from rfl] at ha
    injection ha with ha
    subst ha
    decide
  · intro z hz
    have e : renderEvalTop rds cds =
        (str "In eval expression, line " ++ rds ++ str ", column " ++ cds) ++
          [':'] := rfl
    rw [e, List.getLast?_concat] at hz
    injection hz with hz
    subst hz
    decide

theorem trimSpace_renderLink_eval (rds cds : List Char) :
    trimSpace (renderLink (LinkSpec.evalL rds cds)) =
      renderLink (LinkSpec.evalL rds cds) := by
  apply trimSpace_eq_self
  · intro a ha
    rw [show (renderLink (LinkSpec.evalL rds cds)).head? = some 'L' from rfl] at ha
    injection ha with ha
    subst ha
    decide
  · intro z hz
    have e : renderLink (LinkSpec.evalL rds cds) =
        (str "Located in enclosing eval expression, at line " ++ rds ++
          str ", column " ++ cds) ++ [':'] := rfl
    rw [e, List.getLast?_concat] at hz
    injection hz with hz
    subst hz
    decide

theorem trimSpace_renderLink_file (F rds cds : List Char) :
    trimSpace (renderLink (LinkSpec.fileL F rds cds)) =
      renderLink (LinkSpec.fileL F rds cds) := by
  apply trimSpace_eq_self
  · intro a ha
    rw [show (renderLink (LinkSpec.fileL F rds cds)).head? = some 'L' from rfl] at ha
    injection ha with ha
    subst ha
    decide
  · intro z hz
    have e : renderLink (LinkSpec.fileL F rds cds) =
        (str "Located in file " ++ ('"' :: (F ++ ['"'])) ++ str ", at line " ++
          rds ++ str ", column " ++ cds) ++ [':'] := rfl
    rw [e, List.getLast?_concat] at hz
    injection hz with hz
    subst hz
    decide

theorem epoStep_frag_cons (b : EPBuild) (f : List Char) (rest : List (List Char))
    (hf : wfFrag f) :
    epoStep (EPSt.frag b) (renderFrag f :: rest) =
      epoStep (EPSt.loc (setFrag b f)) rest := by
  unfold wfFrag at hf
  simp only [epoStep]
  rw [hf]
  unfold renderFrag
  rw [goTrimPre_of_append]
  rw [if_pos]
  have h0 : 0 < (str ">> ").length := by decide
  simp [List.length_append]
  omega

theorem epoStep_top_eval (rds cds : List Char) (rest : List (List Char))
    (hr : wfDigits rds) (hc : wfDigits cds) :
    epoStep EPSt.top (renderEvalTop rds cds :: rest) =
      epoStep
        (EPSt.frag
          ⟨⟨[], true, (digitsVal rds : Int), (digitsVal cds : Int), []⟩, []⟩)
        rest := by
  simp only [epoStep]
  rw [trimSpace_renderEvalTop rds cds]
  have e0 : renderEvalTop rds cds =
      str "In eval expression, " ++
        ((str "line " ++ rds ++ str ", column " ++ cds) ++ [':']) := by
    simp only [renderEvalTop]
    rw [show str "In eval expression, line " =
      str "In eval expression, " ++ str "line " from by decide]
    rw [show (str ":" : List Char) = [':'] from rfl]
    simp [List.append_assoc]
  rw [e0, goTrimPre_of_append]
  rw [if_pos]
  · rw [goSliceTo_concat]
    simp only [extract_rcs_eval rds cds hr hc]
  · have h0 : 0 < (str "In eval expression, ").length := by decide
    simp [List.length_append]
    omega

theorem epoStep_loc_eval (b : EPBuild) (rds cds : List Char)
    (rest : List (List Char)) (hr : wfDigits rds) (hc : wfDigits cds) :
    epoStep (EPSt.loc b) (renderLink (LinkSpec.evalL rds cds) :: rest) =
      epoStep
        (EPSt.frag (appendNode b (nodeOfLink (LinkSpec.evalL rds cds) [])))
        rest := by
  simp only [epoStep]
  rw [trimSpace_renderLink_eval rds cds]
  have e0 : renderLink (LinkSpec.evalL rds cds) =
      str "Located in" ++
        (str " enclosing eval expression, at " ++
          ((str "line " ++ rds ++ str ", column " ++ cds) ++ [':'])) := by
    simp only [renderLink]
    rw [show str "Located in enclosing eval expression, at line " =
      str "Located in" ++ (str " enclosing eval expression, at " ++ str "line ")
      from by decide]
    rw [show (str ":" : List Char) = [':'] from rfl]
    simp [List.append_assoc]
  rw [e0, goTrimPre_of_append]
  rw [if_pos]
  · rw [goTrimPre_of_append]
    rw [if_pos]
    · rw [goSliceTo_concat]
      simp only [extract_rcs_eval rds cds hr hc, nodeOfLink]
    · have h0 : 0 < (str " enclosing eval expression, at ").length := by decide
      simp [List.length_append]
      omega
  · have h0 : 0 < (str "Located in").length := by decide
    simp [List.length_append]
    omega

theorem epoStep_loc_file (b : EPBuild) (F rds cds : List Char)
    (rest : List (List Char)) (hF : F.all (fun c => !matchCommaRune c) = true)
    (hr : wfDigits rds) (hc : wfDigits cds) :
    epoStep (EPSt.loc b) (renderLink (LinkSpec.fileL F rds cds) :: rest) =
      epoStep
        (EPSt.frag (appendNode b (nodeOfLink (LinkSpec.fileL F rds cds) [])))
        rest := by
  simp only [epoStep]
  rw [trimSpace_renderLink_file F rds cds]
  have e0 : renderLink (LinkSpec.fileL F rds cds) =
      str "Located in" ++
        (str " file " ++
          ((('"' :: (F ++ ['"'])) ++ str ", at line " ++ rds ++
            str ", column " ++ cds) ++ [':'])) := by
    simp only [renderLink]
    rw [show str "Located in file " =
      str "Located in" ++ str " file " from by decide]
    rw [show (str ":" : List Char) = [':'] from rfl]
    simp [List.append_assoc]
  rw [e0, goTrimPre_of_append]
  rw [if_pos]
  · have hno : (str " enclosing eval expression, at ").isPrefixOf
        (str " file " ++
          ((('"' :: (F ++ ['"'])) ++ str ", at line " ++ rds ++
            str ", column " ++ cds) ++ [':'])) = false := by
      rw [show (str " file " : List Char) = str " f" ++ str "ile " from by decide]
      rw [List.append_assoc]
      exact isPrefixOf_append_false _ (str " f") _ (by decide) (by decide)
    rw [goTrimPre_of_false hno]
    rw [if_neg (lt_irrefl _)]
    rw [goTrimPre_of_append]
    rw [if_pos]
    · rw [goSliceTo_concat]
      simp only [extract_frc_file F rds cds hF hr hc, goSliceRange_quotes,
        nodeOfLink]
    · have h0 : 0 < (str " file ").length := by decide
      simp [List.length_append]
      omega
  · have h0 : 0 < (str "Located in").length := by decide
    simp [List.length_append]
    omega

theorem epoStep_loc_term (b : EPBuild) (rest : List (List Char)) :
    epoStep (EPSt.loc b) (renderLink LinkSpec.termL :: rest) =
      epoStep (EPSt.frag (appendNode b (nodeOfLink LinkSpec.termL []))) rest := by
  simp only [epoStep]
  rw [show trimSpace (renderLink LinkSpec.termL) = renderLink LinkSpec.termL
    from by decide]
  have e0 : renderLink LinkSpec.termL = str "Located in" ++ str ":" := by decide
  rw [e0, goTrimPre_of_append]
  rw [if_pos (by decide)]
  rw [goTrimPre_of_false (by decide)]
  rw [if_neg (lt_irrefl _)]
  rw [goTrimPre_of_false (by decide)]
  rw [if_neg (lt_irrefl _)]
  rw [if_pos rfl]
  rfl

theorem setFrag_appendNode (B : EPBuild) (n : EPNodeData) (g : List Char) :
    setFrag (appendNode B n) g = appendNode B { n with SourceFragment := g } := by
  simp [setFrag, appendNode]

theorem nodeOfLink_frag (l : LinkSpec) (g : List Char) :
    { nodeOfLink l [] with SourceFragment := g } = nodeOfLink l g := by
  cases l <;> rfl

theorem finishB_cons (B : EPBuild) (l : LinkSpec) (g : List Char)
    (t : List (LinkSpec × List Char)) :
    finishB (appendNode B (nodeOfLink l g)) t = finishB B ((l, g) :: t) := by
  simp [finishB, appendNode, List.append_assoc]

theorem epoStep_frag_chain :
    ∀ (items : List (LinkSpec × List Char)) (b : EPBuild) (f : List Char),
      wfFrag f → (∀ it ∈ items, wfLink it.1 ∧ wfFrag it.2) →
      epoStep (EPSt.frag b) (renderFrag f :: renderItems items) =
        EPResult.res none (some (finishB (setFrag b f) items)) := by
  intro items
  induction items with
  | nil =>
    intro b f hf _
    rw [show renderItems [] = [] from rfl]
    rw [epoStep_frag_cons b f [] hf]
    simp only [epoStep]
    simp [finishB]
  | cons it t ih =>
    intro b f hf hits
    obtain ⟨l, g⟩ := it
    have hl : wfLink l := (hits (l, g) (List.mem_cons_self ..)).1
    have hg : wfFrag g := (hits (l, g) (List.mem_cons_self ..)).2
    have ht : ∀ it ∈ t, wfLink it.1 ∧ wfFrag it.2 := fun x hx =>
      hits x (List.mem_cons_of_mem _ hx)
    rw [show renderItems ((l, g) :: t) =
      renderLink l :: renderFrag g :: renderItems t from rfl]
    rw [epoStep_frag_cons b f _ hf]
    cases l with
    | evalL rds cds =>
      obtain ⟨hr, hc⟩ := hl
      rw [epoStep_loc_eval (setFrag b f) rds cds _ hr hc]
      rw [ih _ g hg ht]
      rw [setFrag_appendNode, nodeOfLink_frag, finishB_cons]
    | fileL F rds cds =>
      obtain ⟨hr, hc, hF⟩ := hl
      rw [epoStep_loc_file (setFrag b f) F rds cds _ hF hr hc]
      rw [ih _ g hg ht]
      rw [setFrag_appendNode, nodeOfLink_frag, finishB_cons]
    | termL =>
      rw [epoStep_loc_term (setFrag b f) _]
      rw [ih _ g hg ht]
      rw [setFrag_appendNode, nodeOfLink_frag, finishB_cons]

/-- The record the claim expects for an eval-rooted chain input: the root
node carrying the top-level position and first fragment, then the links
in input order. -/
def epoChainRecord (rds cds f0 : List Char)
    (items : List (LinkSpec × List Char)) : ErrorPosition :=
  ErrorPosition.node
    ⟨[], true, (digitsVal rds : Int), (digitsVal cds : Int), f0⟩
    (chainOf (items.map fun it => nodeOfLink it.1 it.2))

theorem epDepth_chain (l : List EPNodeData) :
    ∀ d : EPNodeData, epDepth (ErrorPosition.node d (chainOf l)) = l.length + 1 := by
  induction l with
  | nil => intro d; rfl
  | cons x t ih =>
    intro d
    show epDepth (ErrorPosition.node d (some (ErrorPosition.node x (chainOf t)))) = _
    rw [show epDepth (ErrorPosition.node d (some (ErrorPosition.node x (chainOf t)))) =
      epDepth (ErrorPosition.node x (chainOf t)) + 1 from rfl]
    rw [ih x]
    rfl

theorem epDeepest_chain (l : List EPNodeData) :
    ∀ d : EPNodeData, epDeepest (ErrorPosition.node d (chainOf l)) =
      l.getLast?.getD d := by
  induction l with
  | nil => intro d; rfl
  | cons x t ih =>
    intro d
    show epDeepest (ErrorPosition.node d (some (ErrorPosition.node x (chainOf t)))) = _
    rw [show epDeepest (ErrorPosition.node d (some (ErrorPosition.node x (chainOf t)))) =
      epDeepest (ErrorPosition.node x (chainOf t)) from rfl]
    rw [ih x]
    cases t with
    | nil => rfl
    | cons y t' =>
      rw [List.getLast?_cons_cons]
      cases h : (y :: t').getLast? with
      | none => simp at h
      | some z => rfl

theorem getLast?_map_eq {α β : Type} (f : α → β) :
    ∀ l : List α, (l.map f).getLast? = l.getLast?.map f := by
  intro l
  induction l with
  | nil => rfl
  | cons a t ih =>
    cases t with
    | nil => rfl
    | cons b t' =>
      show ((f a :: f b :: t'.map f).getLast?) = _
      rw [List.getLast?_cons_cons, show (f b :: t'.map f) = (b :: t').map f from rfl,
        ih, List.getLast?_cons_cons]

/-- C7 (amended): for an eval-expression-rooted chain input — the
top-level `In eval expression, line R, column C:` line, its `>> `
fragment line, then N `Located in ...` link lines (enclosing eval,
enclosing file, or the bare terminator) each followed by its own
fragment line — the parser emits exactly one record whose `LocatedIn`
chain consists of the root plus the N links in input order (acyclic by
construction, with depth N + 1), and a `Located in:` terminator line
produces a final node with empty file, false eval flag and zero row and
column.  (Top-level `In file ...` position lines do not yield a record:
see the counterexample — the trailing colon reaches the numeric parser
and the parser emits an error value instead.) -/
theorem C7_epo_eval_chain (rds cds f0 : List Char)
    (items : List (LinkSpec × List Char))
    (hr : wfDigits rds) (hc : wfDigits cds) (hf : wfFrag f0)
    (hitems : ∀ it ∈ items, wfLink it.1 ∧ wfFrag it.2) :
    epoOutput (renderEvalTop rds cds :: renderFrag f0 :: renderItems items) =
      GoRes.ok [EPOut.emit (epoChainRecord rds cds f0 items)] ∧
    epDepth (epoChainRecord rds cds f0 items) = items.length + 1 ∧
    (∀ g, items.getLast? = some (LinkSpec.termL, g) →
      epDeepest (epoChainRecord rds cds f0 items) =
        (⟨[], false, 0, 0, g⟩ : EPNodeData)) := by
  refine ⟨?_, ?_, ?_⟩
  · unfold epoOutput
    rw [epoStep_top_eval rds cds _ hr hc]
    rw [epoStep_frag_chain items _ f0 hf hitems]
    have hbuild :
        buildEP (finishB
          (setFrag
            (⟨⟨[], true, (digitsVal rds : Int), (digitsVal cds : Int), []⟩, []⟩ :
              EPBuild) f0) items) = epoChainRecord rds cds f0 items := by
      unfold buildEP finishB setFrag epoChainRecord
      simp
    simp only [hbuild]
  · unfold epoChainRecord
    rw [epDepth_chain]
    rw [List.length_map]
  · intro g hg
    unfold epoChainRecord
    rw [epDeepest_chain, getLast?_map_eq, hg]
    rfl

/-- C7 witness: a two-link chain (an enclosing eval link, then the
terminator) parses to one record of depth 3 whose final node has empty
location fields. -/
theorem C7_epo_eval_chain_witness :
    epoOutput (renderEvalTop (str "1") (str "3") :: renderFrag (str "3 mod 0;") ::
        renderItems [(LinkSpec.evalL (str "1") (str "1"), str "x;"),
          (LinkSpec.termL, str "y;")]) =
      GoRes.ok [EPOut.emit (epoChainRecord (str "1") (str "3") (str "3 mod 0;")
        [(LinkSpec.evalL (str "1") (str "1"), str "x;"),
          (LinkSpec.termL, str "y;")])] ∧
    epDepth (epoChainRecord (str "1") (str "3") (str "3 mod 0;")
      [(LinkSpec.evalL (str "1") (str "1"), str "x;"),
        (LinkSpec.termL, str "y;")]) = 3 ∧
    epDeepest (epoChainRecord (str "1") (str "3") (str "3 mod 0;")
      [(LinkSpec.evalL (str "1") (str "1"), str "x;"),
        (LinkSpec.termL, str "y;")]) = (⟨[], false, 0, 0, str "y;"⟩ : EPNodeData) := by
  have hitems : ∀ it ∈ [(LinkSpec.evalL (str "1") (str "1"), str "x;"),
      (LinkSpec.termL, str "y;")], wfLink it.1 ∧ wfFrag it.2 := by
    intro it hit
    rcases List.mem_cons.mp hit with rfl | hit
    · exact ⟨⟨⟨by decide, by decide, by decide⟩, ⟨by decide, by decide, by decide⟩⟩,
        by decide⟩
    rcases List.mem_cons.mp hit with rfl | hit
    · exact ⟨trivial, by decide⟩
    · cases hit
  have h := C7_epo_eval_chain (str "1") (str "3") (str "3 mod 0;")
    [(LinkSpec.evalL (str "1") (str "1"), str "x;"), (LinkSpec.termL, str "y;")]
    ⟨by decide, by decide, by decide⟩ ⟨by decide, by decide, by decide⟩
    (by decide) hitems
  exact ⟨h.1, h.2.1, h.2.2 (str "y;") rfl⟩

end Magma
